import Mathlib

/-!
Verification of the word_mapper alignment-mapping engine.

The definitions below are a shallow embedding of the core functions of
`src/app/page.tsx`: `tokenize`, `splitIntoSentences`, `findNextPhraseIndex`
and `convertLLMAlignments`.  JavaScript strings are modelled by `String`
(lists of characters), JavaScript numbers holding token indices by `Nat`
(with the `-1` sentinel of `findNextPhraseIndex` modelled by `Int`),
JavaScript `Set<number>` objects by `List Nat` (only membership and
insertion are used), and the constant score `1.0` by `(1 : ℚ)`.
-/

namespace WordMapper

/-- The fixed punctuation set stripped by `tokenize`
(the regex `[.,!?;:"'()\[\]\x7b\x7d]` in the source). -/
def punctChars : List Char := ".,!?;:\x22\x27()[]\x7b\x7d".toList

/-- Model of JavaScript `toLowerCase` on one character: ASCII upper-case
letters are shifted to lower case; every other character is left unchanged
(the engine's inputs are compared by this same function on both sides, so
modelling non-ASCII case folding as the identity is uniform). -/
def jsToLower (c : Char) : Char :=
  if 65 ≤ c.toNat ∧ c.toNat ≤ 90 then Char.ofNat (c.toNat + 32) else c

/-- Split a character list at every whitespace character, keeping the
(possibly empty) chunks between them.  `split(/\s+/)` splits at maximal
whitespace runs; splitting at every single whitespace character instead
produces the same non-empty chunks plus extra empty ones, and `tokenize`
filters all empty chunks out, so the two pipelines agree. -/
def splitOnWs : List Char → List Char → List (List Char)
  | [], acc => [acc.reverse]
  | c :: rest, acc =>
    if c.isWhitespace then acc.reverse :: splitOnWs rest []
    else splitOnWs rest (c :: acc)

/-- The first two stages of `tokenize`: lower-case the text, then strip
every character of the punctuation set (`.toLowerCase().replace(...)`). -/
def cleanChars (text : String) : List Char :=
  (text.toList.map jsToLower).filter (fun c => !(punctChars.contains c))

/-- `tokenize` from the source: lower-case, strip the punctuation set,
split on whitespace, drop empty tokens. -/
def tokenize (text : String) : List String :=
  ((splitOnWs (cleanChars text) []).map (fun cs => String.mk cs)).filter
    (fun t => 0 < t.length)

/-- `c` is one of the sentence-ending characters `.`, `!`, `?`. -/
def isSentenceEnd (c : Char) : Bool := c == '.' || c == '!' || c == '?'

/-- Split a character list after every maximal whitespace run that
immediately follows a sentence-ending character — the effect of
`split(/(?<=[.!?])\s+/)`: the matched whitespace run is consumed, the
punctuation stays with the preceding piece.  `acc` holds the current
piece reversed. -/
def splitAfterEnders : List Char → List Char → List (List Char)
  | [], acc => [acc.reverse]
  | c :: rest, acc =>
    if c.isWhitespace && (match acc with | p :: _ => isSentenceEnd p | [] => false) then
      acc.reverse :: splitAfterEnders (List.dropWhile Char.isWhitespace rest) []
    else
      splitAfterEnders rest (c :: acc)
termination_by l _ => l.length
decreasing_by
  · simp only [List.length_cons]
    exact Nat.lt_succ_of_le (List.dropWhile_suffix Char.isWhitespace).length_le
  · simp

/-- The trimmed-and-split pieces of `splitIntoSentences`, before the
empty-result fallback: the `sentences` local of the source. -/
def sentencePieces (text : String) : List String :=
  ((splitAfterEnders text.trim.toList []).map (fun cs => String.mk cs)).filter
    (fun s => 0 < s.trim.length)

/-- `splitIntoSentences` from the source. -/
def splitIntoSentences (text : String) : List String :=
  if 0 < (sentencePieces text).length then sentencePieces text else [text.trim]

/-- The inner `for k` loop of `findNextPhraseIndex`: none of the `len`
positions starting at `i` is already in `used`. -/
def spanFree (used : List Nat) (i len : Nat) : Bool :=
  (List.range len).all (fun k => !(used.contains (i + k)))

/-- The inner `for j` loop of `findNextPhraseIndex`: the tokens starting
at `i` agree with `phrase` token for token (out-of-range reads yield the
default `""`, as JavaScript's `undefined` compares unequal to any phrase
token). -/
def matchesAt (tokens phrase : List String) (i : Nat) : Bool :=
  (List.range phrase.length).all (fun j => tokens.getD (i + j) "" == phrase.getD j "")

/-- One candidate start `i` of `findNextPhraseIndex` is accepted: its span
is free of used positions and matches the phrase. -/
def goodStart (tokens phrase : List String) (used : List Nat) (i : Nat) : Bool :=
  spanFree used i phrase.length && matchesAt tokens phrase i

/-- The `for i` loop of `findNextPhraseIndex`, with `c` candidates left to
try starting at `i`. -/
def findNextAux (tokens phrase : List String) (used : List Nat) : Nat → Nat → Int
  | _, 0 => -1
  | i, c + 1 =>
    if goodStart tokens phrase used i then (i : Int) else findNextAux tokens phrase used (i + 1) c

/-- `findNextPhraseIndex` from the source.  The JavaScript loop runs `i`
from `0` while `i <= tokens.length - phrase.length` (real subtraction), so
it tries `tokens.length - phrase.length + 1` candidates when
`phrase.length ≤ tokens.length` and none otherwise; both cases equal the
truncated `tokens.length + 1 - phrase.length`. -/
def findNextPhraseIndex (tokens phrase : List String) (used : List Nat) : Int :=
  findNextAux tokens phrase used 0 (tokens.length + 1 - phrase.length)

/-- One proposed phrase pair of the LLM response (`interface Alignment`). -/
structure Alignment where
  source : String
  target : String
deriving DecidableEq

/-- One emitted alignment edge (`interface VisualAlignment`).  `groupId`
and ` isPhrase` are optional in the TypeScript interface, hence `Option`
here; `convertLLMAlignments` always sets both. -/
structure VisualAlignment where
  source : Nat
  target : Nat
  sourceToken : String
  targetToken : String
  score : ℚ
  groupId : Option Nat
  isPhrase : Option Bool
deriving DecidableEq

/-- The two `used…Indices` sets threaded through the resolver loop. -/
structure ResolveState where
  usedSource : List Nat
  usedTarget : List Nat
deriving DecidableEq

/-- The positions `start, start+1, …, start+len-1` claimed for one matched
span (the two claiming `for` loops of the resolver). -/
def spanPositions (start len : Nat) : List Nat :=
  (List.range len).map (fun k => start + k)

/-- The nested emission loops of the resolver: one edge per element of the
cross-product of the matched source span and matched target span. -/
def crossEdges (sourceTokens targetTokens : List String) (s t slen tlen groupIdx : Nat)
    (isMultiWord : Bool) : List VisualAlignment :=
  (List.range slen).flatMap (fun i =>
    (List.range tlen).map (fun j =>
      { source := s + i
        target := t + j
        sourceToken := sourceTokens.getD (s + i) ""
        targetToken := targetTokens.getD (t + j) ""
        score := 1
        groupId := some groupIdx
        isPhrase := some isMultiWord }))

/-- The body of the `llmAlignments.forEach` loop of `convertLLMAlignments`:
resolve one phrase pair against the current used sets, returning the new
state and the edges emitted for this pair. -/
def resolvePair (sourceTokens targetTokens : List String) (st : ResolveState)
    (al : Alignment) (groupIdx : Nat) : ResolveState × List VisualAlignment :=
  let sourcePhrase := tokenize al.source
  let targetPhrase := tokenize al.target
  let srcStartIdx := findNextPhraseIndex sourceTokens sourcePhrase st.usedSource
  let tgtStartIdx := findNextPhraseIndex targetTokens targetPhrase st.usedTarget
  if srcStartIdx ≠ -1 ∧ tgtStartIdx ≠ -1 then
    let s := srcStartIdx.toNat
    let t := tgtStartIdx.toNat
    let isMultiWord := decide (1 < sourcePhrase.length) || decide (1 < targetPhrase.length)
    (⟨st.usedSource ++ spanPositions s sourcePhrase.length,
      st.usedTarget ++ spanPositions t targetPhrase.length⟩,
     crossEdges sourceTokens targetTokens s t sourcePhrase.length targetPhrase.length
       groupIdx isMultiWord)
  else
    (st, [])

/-- The `forEach` loop of `convertLLMAlignments`, processing the remaining
pairs from state `st`, the next pair having index `idx`. -/
def resolvePairsAux (S T : List String) :
    List Alignment → ResolveState → Nat → ResolveState × List VisualAlignment
  | [], st, _ => (st, [])
  | al :: rest, st, idx =>
    let step := resolvePair S T st al idx
    let recur := resolvePairsAux S T rest step.1 (idx + 1)
    (recur.1, step.2 ++ recur.2)

/-- The record returned by `convertLLMAlignments`. -/
structure ConvertResult where
  sourceTokens : List String
  targetTokens : List String
  alignments : List VisualAlignment
deriving DecidableEq

/-- `convertLLMAlignments` from the source. -/
def convertLLMAlignments (llmAlignments : List Alignment) (sourceText targetText : String) :
    ConvertResult :=
  let S := tokenize sourceText
  let T := tokenize targetText
  { sourceTokens := S
    targetTokens := T
    alignments := (resolvePairsAux S T llmAlignments ⟨[], []⟩ 0).2 }

/-- The resolver state after the first `k` pairs of a run of
`convertLLMAlignments` over token lists `S`, `T`. -/
def stateBefore (S T : List String) (pairs : List Alignment) (k : Nat) : ResolveState :=
  (resolvePairsAux S T (pairs.take k) ⟨[], []⟩ 0).1

/-- Shift an edge's group id up by one (used to compare a run against the
same run with one earlier pair removed). -/
def bumpGroup (e : VisualAlignment) : VisualAlignment :=
  { e with groupId := e.groupId.map (· + 1) }

/-- Join tokens back into text with single spaces (the rejoined form used
to state idempotence of tokenization). -/
def joinWithSpaces : List String → String
  | [] => ""
  | [t] => t
  | t :: rest => t ++ " " ++ joinWithSpaces rest

/-- A start position satisfying the documented contract of the phrase
locator: the span fits inside the token list, avoids every used position,
and agrees with the phrase token for token. -/
def ValidStart (tokens phrase : List String) (used : List Nat) (i : Nat) : Prop :=
  i + phrase.length ≤ tokens.length ∧
    (∀ k < phrase.length, (i + k) ∉ used) ∧
    (∀ j < phrase.length, tokens.getD (i + j) "" = phrase.getD j "")

instance (tokens phrase : List String) (used : List Nat) (i : Nat) :
    Decidable (ValidStart tokens phrase used i) := by
  unfold ValidStart
  infer_instance

/- ### Character-level facts -/

theorem char_toNat_ofNat_valid (n : Nat) (h : n.isValidChar) : (Char.ofNat n).toNat = n := by
  unfold Char.ofNat
  rw [dif_pos h]
  rfl

theorem jsToLower_not_upper (c : Char) :
    ¬(65 ≤ (jsToLower c).toNat ∧ (jsToLower c).toNat ≤ 90) := by
  unfold jsToLower
  split
  case isTrue h =>
    rw [char_toNat_ofNat_valid _ (Or.inl (by omega))]
    omega
  case isFalse h => exact h

theorem jsToLower_eq_self {c : Char} (h : ¬(65 ≤ c.toNat ∧ c.toNat ≤ 90)) : jsToLower c = c := by
  unfold jsToLower
  exact if_neg h

theorem jsToLower_idem (c : Char) : jsToLower (jsToLower c) = jsToLower c :=
  jsToLower_eq_self (jsToLower_not_upper c)

/- ### Tokenizer facts -/

theorem mem_splitOnWs {l acc piece : List Char} (hp : piece ∈ splitOnWs l acc) :
    ∀ c ∈ piece, c ∈ acc ∨ (c ∈ l ∧ c.isWhitespace = false) := by
  induction l generalizing acc with
  | nil =>
    intro c hc
    simp only [splitOnWs, List.mem_singleton] at hp
    subst hp
    exact Or.inl (List.mem_reverse.mp hc)
  | cons d rest ih =>
    intro c hc
    rw [splitOnWs] at hp
    by_cases hws : d.isWhitespace
    · rw [if_pos hws] at hp
      rcases List.mem_cons.mp hp with h1 | h2
      · subst h1
        exact Or.inl (List.mem_reverse.mp hc)
      · rcases ih h2 c hc with h3 | h4
        · exact absurd h3 (List.not_mem_nil c)
        · exact Or.inr ⟨List.mem_cons_of_mem d h4.1, h4.2⟩
    · rw [if_neg hws] at hp
      rcases ih hp c hc with h3 | h4
      · rcases List.mem_cons.mp h3 with h5 | h6
        · subst h5
          exact Or.inr ⟨List.mem_cons_self .., Bool.eq_false_iff.mpr hws⟩
        · exact Or.inl h6
      · exact Or.inr ⟨List.mem_cons_of_mem d h4.1, h4.2⟩

theorem tokenize_mem_chars {s t : String} (ht : t ∈ tokenize s) :
    ∀ c ∈ t.data, c.isWhitespace = false ∧ c ∉ punctChars ∧
      ¬(65 ≤ c.toNat ∧ c.toNat ≤ 90) ∧ jsToLower c = c := by
  intro c hc
  unfold tokenize at ht
  obtain ⟨hmem, -⟩ := List.mem_filter.mp ht
  obtain ⟨piece, hpiece, rfl⟩ := List.mem_map.mp hmem
  have hchar := mem_splitOnWs hpiece c hc
  rcases hchar with h1 | h2
  · exact absurd h1 (List.not_mem_nil c)
  · obtain ⟨hcl, hws⟩ := h2
    unfold cleanChars at hcl
    obtain ⟨hmap, hpun⟩ := List.mem_filter.mp hcl
    obtain ⟨d, -, rfl⟩ := List.mem_map.mp hmap
    have hnu := jsToLower_not_upper d
    exact ⟨hws, by simpa using hpun, hnu, jsToLower_eq_self hnu⟩

theorem tokenize_mem_ne_nil {s t : String} (ht : t ∈ tokenize s) : t.data ≠ [] := by
  unfold tokenize at ht
  obtain ⟨-, hlen⟩ := List.mem_filter.mp ht
  intro hdata
  have : t.length = 0 := by
    show t.data.length = 0
    rw [hdata]
    rfl
  simp [this] at hlen

theorem tokenize_getD_ne_empty {s : String} {j : Nat} (hj : j < (tokenize s).length) :
    (tokenize s).getD j "" ≠ "" := by
  have hmem : (tokenize s).getD j "" ∈ tokenize s := by
    rw [List.getD_eq_getElem _ _ hj]
    exact List.getElem_mem hj
  intro hcon
  exact tokenize_mem_ne_nil hmem (by rw [hcon])

/- ### Phrase-locator characterization -/

theorem findNextAux_eq_neg_one {tokens phrase : List String} {used : List Nat} {c i : Nat}
    (h : ∀ k < c, goodStart tokens phrase used (i + k) = false) :
    findNextAux tokens phrase used i c = -1 := by
  induction c generalizing i with
  | zero => rfl
  | succ c ih =>
    rw [findNextAux, if_neg]
    · refine ih fun k hk => ?_
      have h2 := h (k + 1) (by omega)
      rw [show i + 1 + k = i + (k + 1) by omega]
      exact h2
    · have h0 := h 0 (Nat.succ_pos c)
      simp only [Nat.add_zero] at h0
      simp [h0]

theorem findNextAux_eq_of_good {tokens phrase : List String} {used : List Nat} {c i k : Nat}
    (hk : k < c) (hgood : goodStart tokens phrase used (i + k) = true)
    (hmin : ∀ m < k, goodStart tokens phrase used (i + m) = false) :
    findNextAux tokens phrase used i c = ((i + k : Nat) : Int) := by
  induction c generalizing i k with
  | zero => omega
  | succ c ih =>
    rw [findNextAux]
    cases k with
    | zero =>
      rw [if_pos]
      · simp
      · simpa using hgood
    | succ k2 =>
      rw [if_neg]
      · have step := ih (i := i + 1) (k := k2) (by omega)
          (by rw [show i + 1 + k2 = i + (k2 + 1) by omega]; exact hgood)
          (fun m hm => by
            rw [show i + 1 + m = i + (m + 1) by omega]
            exact hmin (m + 1) (by omega))
        rw [step, show i + 1 + k2 = i + (k2 + 1) by omega]
      · have h0 := hmin 0 (Nat.succ_pos k2)
        simp only [Nat.add_zero] at h0
        simp [h0]

theorem goodStart_iff (tokens phrase : List String) (used : List Nat) (i : Nat) :
    goodStart tokens phrase used i = true ↔
      ((∀ k < phrase.length, (i + k) ∉ used) ∧
       (∀ j < phrase.length, tokens.getD (i + j) "" = phrase.getD j "")) := by
  unfold goodStart spanFree matchesAt
  simp [List.all_eq_true, List.mem_range]

theorem validStart_iff (tokens phrase : List String) (used : List Nat) (i : Nat) :
    ValidStart tokens phrase used i ↔
      (i < tokens.length + 1 - phrase.length ∧ goodStart tokens phrase used i = true) := by
  rw [goodStart_iff]
  unfold ValidStart
  constructor
  · rintro ⟨h1, h2, h3⟩
    exact ⟨by omega, h2, h3⟩
  · rintro ⟨h1, h2, h3⟩
    exact ⟨by omega, h2, h3⟩

theorem findNextPhraseIndex_spec (tokens phrase : List String) (used : List Nat) :
    (findNextPhraseIndex tokens phrase used = -1 ∧ ∀ i, ¬ ValidStart tokens phrase used i) ∨
    (∃ i : Nat, findNextPhraseIndex tokens phrase used = (i : Int) ∧
      ValidStart tokens phrase used i ∧ ∀ j < i, ¬ ValidStart tokens phrase used j) := by
  by_cases hex : ∃ i, ValidStart tokens phrase used i
  · right
    refine ⟨Nat.find hex, ?_, Nat.find_spec hex, fun j hj => Nat.find_min hex hj⟩
    have hvalid := Nat.find_spec hex
    have hrange := ((validStart_iff tokens phrase used (Nat.find hex)).mp hvalid).1
    have hgood := ((validStart_iff tokens phrase used (Nat.find hex)).mp hvalid).2
    unfold findNextPhraseIndex
    have := findNextAux_eq_of_good (c := tokens.length + 1 - phrase.length) (i := 0)
      (k := Nat.find hex) hrange (by simpa using hgood)
      (fun m hm => by
        have hnv := Nat.find_min hex hm
        rw [validStart_iff] at hnv
        simp only [Nat.zero_add]
        by_contra hcon
        exact hnv ⟨by omega, by simpa using hcon⟩)
    simpa using this
  · left
    push_neg at hex
    constructor
    · unfold findNextPhraseIndex
      refine findNextAux_eq_neg_one fun k hk => ?_
      by_contra hcon
      exact hex k ((validStart_iff tokens phrase used k).mpr
        ⟨by omega, by simpa using hcon⟩)
    · exact hex

theorem findNextPhraseIndex_ne_neg_one {tokens phrase : List String} {used : List Nat}
    (h : findNextPhraseIndex tokens phrase used ≠ -1) :
    findNextPhraseIndex tokens phrase used =
      (((findNextPhraseIndex tokens phrase used).toNat : Nat) : Int) ∧
    goodStart tokens phrase used (findNextPhraseIndex tokens phrase used).toNat = true := by
  rcases findNextPhraseIndex_spec tokens phrase used with ⟨h1, -⟩ | ⟨i, h1, h2, -⟩
  · exact absurd h1 h
  · constructor
    · rw [h1]
      simp
    · rw [h1, Int.toNat_natCast]
      exact ((validStart_iff tokens phrase used i).mp h2).2

theorem matchesAt_bound {tokens phrase : List String} {i : Nat}
    (hm : matchesAt tokens phrase i = true) (hne : phrase ≠ [])
    (hlast : phrase.getD (phrase.length - 1) "" ≠ "") :
    i + phrase.length ≤ tokens.length := by
  by_contra hlt
  push_neg at hlt
  have hplen : 0 < phrase.length := List.length_pos.mpr hne
  unfold matchesAt at hm
  rw [List.all_eq_true] at hm
  have hj := hm (phrase.length - 1) (by rw [List.mem_range]; omega)
  rw [beq_iff_eq] at hj
  rw [List.getD_eq_default _ _ (by omega)] at hj
  exact hlast hj.symm

/- ### Resolver step lemmas -/

theorem resolvePair_fail (S T : List String) (st : ResolveState) (al : Alignment) (g : Nat)
    (h : findNextPhraseIndex S (tokenize al.source) st.usedSource = -1 ∨
         findNextPhraseIndex T (tokenize al.target) st.usedTarget = -1) :
    resolvePair S T st al g = (st, []) := by
  unfold resolvePair
  rw [if_neg]
  rcases h with h | h <;> simp [h]

theorem resolvePair_succ (S T : List String) (st : ResolveState) (al : Alignment) (g s t : Nat)
    (hs : findNextPhraseIndex S (tokenize al.source) st.usedSource = (s : Int))
    (ht : findNextPhraseIndex T (tokenize al.target) st.usedTarget = (t : Int)) :
    resolvePair S T st al g =
      (⟨st.usedSource ++ spanPositions s (tokenize al.source).length,
        st.usedTarget ++ spanPositions t (tokenize al.target).length⟩,
       crossEdges S T s t (tokenize al.source).length (tokenize al.target).length g
         (decide (1 < (tokenize al.source).length) ||
          decide (1 < (tokenize al.target).length))) := by
  unfold resolvePair
  simp only [hs, ht, Int.toNat_natCast]
  rw [if_pos]
  constructor <;> omega

theorem mem_crossEdges_iff {S T : List String} {s t slen tlen g : Nat} {b : Bool}
    {e : VisualAlignment} :
    e ∈ crossEdges S T s t slen tlen g b ↔
      ∃ i < slen, ∃ j < tlen,
        e = ⟨s + i, t + j, S.getD (s + i) "", T.getD (t + j) "", 1, some g, some b⟩ := by
  unfold crossEdges
  simp only [List.mem_flatMap, List.mem_map, List.mem_range]
  constructor
  · rintro ⟨i, hi, j, hj, rfl⟩
    exact ⟨i, hi, j, hj, rfl⟩
  · rintro ⟨i, hi, j, hj, rfl⟩
    exact ⟨i, hi, j, hj, rfl⟩

theorem crossEdges_map_pairs {S T : List String} {s t slen tlen g : Nat} {b : Bool} :
    (crossEdges S T s t slen tlen g b).map (fun e => (e.source, e.target)) =
      (List.range slen).flatMap (fun i => (List.range tlen).map (fun j => (s + i, t + j))) := by
  simp only [crossEdges, List.map_flatMap, List.map_map]
  rfl

theorem rangePairs_nodup {s t slen tlen : Nat} :
    ((List.range slen).flatMap fun i =>
      (List.range tlen).map fun j => (s + i, t + j)).Nodup := by
  rw [List.nodup_flatMap]
  constructor
  · intro i hi
    refine List.Nodup.map ?_ (List.nodup_range tlen)
    intro a b hab
    have h2 := congrArg Prod.snd hab
    simp only at h2
    omega
  · refine (List.pairwise_lt_range slen).imp ?_
    intro a b hab
    intro x hxa hxb
    simp only [List.mem_map, List.mem_range] at hxa hxb
    obtain ⟨j1, -, h1⟩ := hxa
    obtain ⟨j2, -, h2⟩ := hxb
    rw [← h1] at h2
    have h3 := congrArg Prod.fst h2
    simp only at h3
    omega

theorem mem_rangePairs_iff {s t slen tlen p q : Nat} :
    (p, q) ∈ ((List.range slen).flatMap fun i =>
        (List.range tlen).map fun j => (s + i, t + j)) ↔
      ((∃ i < slen, p = s + i) ∧ (∃ j < tlen, q = t + j)) := by
  simp only [List.mem_flatMap, List.mem_map, List.mem_range, Prod.mk.injEq]
  constructor
  · rintro ⟨i, hi, j, hj, h1, h2⟩
    exact ⟨⟨i, hi, h1.symm⟩, ⟨j, hj, h2.symm⟩⟩
  · rintro ⟨⟨i, hi, h1⟩, ⟨j, hj, h2⟩⟩
    exact ⟨i, hi, j, hj, h1.symm, h2.symm⟩

theorem mem_spanPositions {start len x : Nat} :
    x ∈ spanPositions start len ↔ ∃ k < len, x = start + k := by
  unfold spanPositions
  simp only [List.mem_map, List.mem_range]
  constructor
  · rintro ⟨k, hk, rfl⟩
    exact ⟨k, hk, rfl⟩
  · rintro ⟨k, hk, rfl⟩
    exact ⟨k, hk, rfl⟩

theorem resolvePair_used_mono (S T : List String) (st : ResolveState) (al : Alignment)
    (g : Nat) :
    (∀ x ∈ st.usedSource, x ∈ (resolvePair S T st al g).1.usedSource) ∧
    (∀ x ∈ st.usedTarget, x ∈ (resolvePair S T st al g).1.usedTarget) := by
  by_cases hs : findNextPhraseIndex S (tokenize al.source) st.usedSource = -1
  · rw [resolvePair_fail _ _ _ _ _ (Or.inl hs)]
    exact ⟨fun x hx => hx, fun x hx => hx⟩
  by_cases ht : findNextPhraseIndex T (tokenize al.target) st.usedTarget = -1
  · rw [resolvePair_fail _ _ _ _ _ (Or.inr ht)]
    exact ⟨fun x hx => hx, fun x hx => hx⟩
  obtain ⟨hs1, -⟩ := findNextPhraseIndex_ne_neg_one hs
  obtain ⟨ht1, -⟩ := findNextPhraseIndex_ne_neg_one ht
  rw [resolvePair_succ _ _ _ _ _ _ _ hs1 ht1]
  exact ⟨fun x hx => List.mem_append_left _ hx, fun x hx => List.mem_append_left _ hx⟩

/-- Consolidated description of the edges emitted by one successful (or
failed) resolver step: group id, score, claimed/fresh positions, index
bounds, and token fields. -/
theorem resolvePair_edges {S T : List String} {st : ResolveState} {al : Alignment}
    {g : Nat} {e : VisualAlignment} (he : e ∈ (resolvePair S T st al g).2) :
    e.groupId = some g ∧ e.score = 1 ∧
    e.source ∈ (resolvePair S T st al g).1.usedSource ∧ e.source ∉ st.usedSource ∧
    e.target ∈ (resolvePair S T st al g).1.usedTarget ∧ e.target ∉ st.usedTarget ∧
    e.source < S.length ∧ e.sourceToken = S.getD e.source "" ∧
    e.target < T.length ∧ e.targetToken = T.getD e.target "" := by
  by_cases hs : findNextPhraseIndex S (tokenize al.source) st.usedSource = -1
  · rw [resolvePair_fail _ _ _ _ _ (Or.inl hs)] at he
    exact absurd he (List.not_mem_nil e)
  by_cases ht : findNextPhraseIndex T (tokenize al.target) st.usedTarget = -1
  · rw [resolvePair_fail _ _ _ _ _ (Or.inr ht)] at he
    exact absurd he (List.not_mem_nil e)
  obtain ⟨hs1, hgoodS⟩ := findNextPhraseIndex_ne_neg_one hs
  obtain ⟨ht1, hgoodT⟩ := findNextPhraseIndex_ne_neg_one ht
  rw [resolvePair_succ _ _ _ _ _ _ _ hs1 ht1] at he ⊢
  rw [mem_crossEdges_iff] at he
  obtain ⟨i, hi, j, hj, rfl⟩ := he
  have hfreeS := ((goodStart_iff _ _ _ _).mp hgoodS).1
  have hmatchS := ((goodStart_iff _ _ _ _).mp hgoodS).2
  have hfreeT := ((goodStart_iff _ _ _ _).mp hgoodT).1
  have hmatchT := ((goodStart_iff _ _ _ _).mp hgoodT).2
  set s := (findNextPhraseIndex S (tokenize al.source) st.usedSource).toNat
  set t := (findNextPhraseIndex T (tokenize al.target) st.usedTarget).toNat
  have hSlen : s + (tokenize al.source).length ≤ S.length := by
    refine matchesAt_bound ?_ ?_ ?_
    · have h2 := hgoodS
      unfold goodStart at h2
      rw [Bool.and_eq_true] at h2
      exact h2.2
    · exact fun hnil => by simp [hnil] at hi
    · exact tokenize_getD_ne_empty (by omega)
  have hTlen : t + (tokenize al.target).length ≤ T.length := by
    refine matchesAt_bound ?_ ?_ ?_
    · have h2 := hgoodT
      unfold goodStart at h2
      rw [Bool.and_eq_true] at h2
      exact h2.2
    · exact fun hnil => by simp [hnil] at hj
    · exact tokenize_getD_ne_empty (by omega)
  refine ⟨rfl, rfl, ?_, ?_, ?_, ?_, ?_, rfl, ?_, rfl⟩
  · exact List.mem_append_right _ (mem_spanPositions.mpr ⟨i, hi, rfl⟩)
  · exact hfreeS i hi
  · exact List.mem_append_right _ (mem_spanPositions.mpr ⟨j, hj, rfl⟩)
  · exact hfreeT j hj
  · show s + i < S.length
    omega
  · show t + j < T.length
    omega

/- ### Resolver loop lemmas -/

theorem resolvePairsAux_nil (S T : List String) (st : ResolveState) (idx : Nat) :
    resolvePairsAux S T [] st idx = (st, []) := rfl

theorem resolvePairsAux_cons (S T : List String) (al : Alignment) (rest : List Alignment)
    (st : ResolveState) (idx : Nat) :
    resolvePairsAux S T (al :: rest) st idx =
      ((resolvePairsAux S T rest (resolvePair S T st al idx).1 (idx + 1)).1,
       (resolvePair S T st al idx).2 ++
         (resolvePairsAux S T rest (resolvePair S T st al idx).1 (idx + 1)).2) := rfl

theorem resolvePairsAux_append (S T : List String) (l1 l2 : List Alignment)
    (st : ResolveState) (idx : Nat) :
    resolvePairsAux S T (l1 ++ l2) st idx =
      ((resolvePairsAux S T l2 (resolvePairsAux S T l1 st idx).1 (idx + l1.length)).1,
       (resolvePairsAux S T l1 st idx).2 ++
         (resolvePairsAux S T l2 (resolvePairsAux S T l1 st idx).1 (idx + l1.length)).2) := by
  induction l1 generalizing st idx with
  | nil => simp [resolvePairsAux_nil]
  | cons a l ih =>
    rw [List.cons_append, resolvePairsAux_cons, ih, resolvePairsAux_cons]
    rw [show idx + 1 + l.length = idx + (a :: l).length by simp; omega]
    rw [List.append_assoc]

theorem resolvePairsAux_used_mono (S T : List String) (l : List Alignment)
    (st : ResolveState) (idx : Nat) :
    (∀ x ∈ st.usedSource, x ∈ (resolvePairsAux S T l st idx).1.usedSource) ∧
    (∀ x ∈ st.usedTarget, x ∈ (resolvePairsAux S T l st idx).1.usedTarget) := by
  induction l generalizing st idx with
  | nil => exact ⟨fun x hx => hx, fun x hx => hx⟩
  | cons a l ih =>
    rw [resolvePairsAux_cons]
    refine ⟨fun x hx => ?_, fun x hx => ?_⟩
    · exact (ih (resolvePair S T st a idx).1 (idx + 1)).1 x
        ((resolvePair_used_mono S T st a idx).1 x hx)
    · exact (ih (resolvePair S T st a idx).1 (idx + 1)).2 x
        ((resolvePair_used_mono S T st a idx).2 x hx)

theorem resolvePairsAux_edges_fresh (S T : List String) (l : List Alignment)
    (st : ResolveState) (idx : Nat) (e : VisualAlignment)
    (he : e ∈ (resolvePairsAux S T l st idx).2) :
    e.source ∉ st.usedSource ∧ e.target ∉ st.usedTarget := by
  induction l generalizing st idx with
  | nil => exact absurd he (List.not_mem_nil e)
  | cons a l ih =>
    rw [resolvePairsAux_cons] at he
    rcases List.mem_append.mp he with h1 | h2
    · have hp := resolvePair_edges h1
      exact ⟨hp.2.2.2.1, hp.2.2.2.2.2.1⟩
    · have hfresh := ih (resolvePair S T st a idx).1 (idx + 1) h2
      refine ⟨fun hx => ?_, fun hx => ?_⟩
      · exact hfresh.1 ((resolvePair_used_mono S T st a idx).1 e.source hx)
      · exact hfresh.2 ((resolvePair_used_mono S T st a idx).2 e.target hx)

theorem resolvePairsAux_edges_mem_final (S T : List String) (l : List Alignment)
    (st : ResolveState) (idx : Nat) (e : VisualAlignment)
    (he : e ∈ (resolvePairsAux S T l st idx).2) :
    e.source ∈ (resolvePairsAux S T l st idx).1.usedSource ∧
    e.target ∈ (resolvePairsAux S T l st idx).1.usedTarget := by
  induction l generalizing st idx with
  | nil => exact absurd he (List.not_mem_nil e)
  | cons a l ih =>
    rw [resolvePairsAux_cons] at he ⊢
    rcases List.mem_append.mp he with h1 | h2
    · have hp := resolvePair_edges h1
      constructor
      · exact (resolvePairsAux_used_mono S T l _ (idx + 1)).1 e.source hp.2.2.1
      · exact (resolvePairsAux_used_mono S T l _ (idx + 1)).2 e.target hp.2.2.2.2.1
    · exact ih (resolvePair S T st a idx).1 (idx + 1) h2

theorem resolvePairsAux_edges_groupId (S T : List String) (l : List Alignment)
    (st : ResolveState) (idx : Nat) (e : VisualAlignment)
    (he : e ∈ (resolvePairsAux S T l st idx).2) :
    ∃ k, e.groupId = some k ∧ idx ≤ k ∧ k < idx + l.length := by
  induction l generalizing st idx with
  | nil => exact absurd he (List.not_mem_nil e)
  | cons a l ih =>
    rw [resolvePairsAux_cons] at he
    rcases List.mem_append.mp he with h1 | h2
    · exact ⟨idx, (resolvePair_edges h1).1, Nat.le_refl idx, by simp⟩
    · obtain ⟨k, hk1, hk2, hk3⟩ := ih (resolvePair S T st a idx).1 (idx + 1) h2
      exact ⟨k, hk1, by omega, by simp; omega⟩

theorem resolvePairsAux_edge_fields (S T : List String) (l : List Alignment)
    (st : ResolveState) (idx : Nat) (e : VisualAlignment)
    (he : e ∈ (resolvePairsAux S T l st idx).2) :
    e.score = 1 ∧ (∃ g, e.groupId = some g) ∧
    e.source < S.length ∧ e.sourceToken = S.getD e.source "" ∧
    e.target < T.length ∧ e.targetToken = T.getD e.target "" := by
  induction l generalizing st idx with
  | nil => exact absurd he (List.not_mem_nil e)
  | cons a l ih =>
    rw [resolvePairsAux_cons] at he
    rcases List.mem_append.mp he with h1 | h2
    · have hp := resolvePair_edges h1
      exact ⟨hp.2.1, ⟨idx, hp.1⟩, hp.2.2.2.2.2.2.1, hp.2.2.2.2.2.2.2.1,
        hp.2.2.2.2.2.2.2.2.1, hp.2.2.2.2.2.2.2.2.2⟩
    · exact ih (resolvePair S T st a idx).1 (idx + 1) h2

theorem resolvePairsAux_cross_group (S T : List String) (l : List Alignment)
    (st : ResolveState) (idx : Nat) :
    ∀ e1 ∈ (resolvePairsAux S T l st idx).2, ∀ e2 ∈ (resolvePairsAux S T l st idx).2,
      e1.groupId ≠ e2.groupId → e1.source ≠ e2.source ∧ e1.target ≠ e2.target := by
  induction l generalizing st idx with
  | nil => exact fun e1 he1 => absurd he1 (List.not_mem_nil e1)
  | cons a l ih =>
    intro e1 he1 e2 he2 hg
    rw [resolvePairsAux_cons] at he1 he2
    rcases List.mem_append.mp he1 with h1 | h1 <;> rcases List.mem_append.mp he2 with h2 | h2
    · exact absurd ((resolvePair_edges h1).1.trans (resolvePair_edges h2).1.symm) hg
    · have hmem := resolvePair_edges h1
      have hfresh := resolvePairsAux_edges_fresh S T l _ (idx + 1) e2 h2
      constructor
      · exact fun hcon => hfresh.1 (hcon ▸ hmem.2.2.1)
      · exact fun hcon => hfresh.2 (hcon ▸ hmem.2.2.2.2.1)
    · have hmem := resolvePair_edges h2
      have hfresh := resolvePairsAux_edges_fresh S T l _ (idx + 1) e1 h1
      constructor
      · exact fun hcon => hfresh.1 (hcon ▸ hmem.2.2.1)
      · exact fun hcon => hfresh.2 (hcon ▸ hmem.2.2.2.2.1)
    · exact ih (resolvePair S T st a idx).1 (idx + 1) e1 h1 e2 h2 hg

theorem crossEdges_bump {S T : List String} {s t slen tlen g : Nat} {b : Bool} :
    (crossEdges S T s t slen tlen g b).map bumpGroup =
      crossEdges S T s t slen tlen (g + 1) b := by
  unfold crossEdges bumpGroup
  rw [List.map_flatMap]
  simp only [List.map_map]
  rfl

theorem resolvePair_idx_shift (S T : List String) (st : ResolveState) (al : Alignment)
    (g : Nat) :
    resolvePair S T st al (g + 1) =
      ((resolvePair S T st al g).1, ((resolvePair S T st al g).2).map bumpGroup) := by
  by_cases hs : findNextPhraseIndex S (tokenize al.source) st.usedSource = -1
  · rw [resolvePair_fail _ _ _ _ _ (Or.inl hs), resolvePair_fail _ _ _ _ _ (Or.inl hs)]
    rfl
  by_cases ht : findNextPhraseIndex T (tokenize al.target) st.usedTarget = -1
  · rw [resolvePair_fail _ _ _ _ _ (Or.inr ht), resolvePair_fail _ _ _ _ _ (Or.inr ht)]
    rfl
  obtain ⟨hs1, -⟩ := findNextPhraseIndex_ne_neg_one hs
  obtain ⟨ht1, -⟩ := findNextPhraseIndex_ne_neg_one ht
  rw [resolvePair_succ _ _ _ _ _ _ _ hs1 ht1, resolvePair_succ _ _ _ _ _ _ _ hs1 ht1, crossEdges_bump]

theorem resolvePairsAux_idx_shift (S T : List String) (l : List Alignment)
    (st : ResolveState) (idx : Nat) :
    (resolvePairsAux S T l st (idx + 1)).1 = (resolvePairsAux S T l st idx).1 ∧
    (resolvePairsAux S T l st (idx + 1)).2 =
      ((resolvePairsAux S T l st idx).2).map bumpGroup := by
  induction l generalizing st idx with
  | nil => exact ⟨rfl, rfl⟩
  | cons a l ih =>
    rw [resolvePairsAux_cons, resolvePairsAux_cons, resolvePair_idx_shift]
    obtain ⟨ihst, ihed⟩ := ih (resolvePair S T st a idx).1 (idx + 1)
    exact ⟨ihst, by rw [List.map_append, ihed]⟩

theorem stateBefore_succ (S T : List String) (llm : List Alignment) (g : Nat)
    (hg : g < llm.length) :
    stateBefore S T llm (g + 1) =
      (resolvePair S T (stateBefore S T llm g) (llm.getD g ⟨"", ""⟩) g).1 := by
  unfold stateBefore
  rw [← List.take_concat_get llm g hg, List.concat_eq_append, resolvePairsAux_append]
  have hmin : (llm.take g).length = g := by
    rw [List.length_take]
    omega
  rw [hmin]
  rw [resolvePairsAux_cons]
  rw [resolvePairsAux_nil]
  rw [List.getD_eq_getElem llm ⟨"", ""⟩ hg]
  simp only [Nat.zero_add]

theorem convert_alignments_eq (llm : List Alignment) (srcText tgtText : String) :
    (convertLLMAlignments llm srcText tgtText).alignments =
      (resolvePairsAux (tokenize srcText) (tokenize tgtText) llm ⟨[], []⟩ 0).2 := rfl

/-- The edges of a full resolver run split into the edges of the pairs
before `g`, the edges of pair `g` itself, and the edges of the pairs after
`g`. -/
theorem convert_edges_split (llm : List Alignment) (srcText tgtText : String) (g : Nat)
    (hg : g < llm.length) :
    (convertLLMAlignments llm srcText tgtText).alignments =
      (resolvePairsAux (tokenize srcText) (tokenize tgtText) (llm.take g) ⟨[], []⟩ 0).2 ++
      ((resolvePair (tokenize srcText) (tokenize tgtText)
          (stateBefore (tokenize srcText) (tokenize tgtText) llm g) (llm.getD g ⟨"", ""⟩) g).2 ++
       (resolvePairsAux (tokenize srcText) (tokenize tgtText) (llm.drop (g + 1))
          (stateBefore (tokenize srcText) (tokenize tgtText) llm (g + 1)) (g + 1)).2) := by
  rw [convert_alignments_eq]
  conv_lhs => rw [← List.take_append_drop g llm, List.drop_eq_getElem_cons hg]
  rw [resolvePairsAux_append]
  have hmin : (llm.take g).length = g := by
    rw [List.length_take]
    omega
  rw [hmin, resolvePairsAux_cons]
  rw [stateBefore_succ (tokenize srcText) (tokenize tgtText) llm g hg]
  rw [List.getD_eq_getElem llm ⟨"", ""⟩ hg]
  simp only [Nat.zero_add]
  rfl

/-- Filtering a full run's edge list by group id `g` yields exactly the
edges emitted for pair `g` (earlier pairs carry smaller ids, later pairs
larger ones). -/
theorem convert_group_filter (llm : List Alignment) (srcText tgtText : String) (g : Nat)
    (hg : g < llm.length) :
    (convertLLMAlignments llm srcText tgtText).alignments.filter
        (fun e => decide (e.groupId = some g)) =
      (resolvePair (tokenize srcText) (tokenize tgtText)
        (stateBefore (tokenize srcText) (tokenize tgtText) llm g) (llm.getD g ⟨"", ""⟩) g).2 := by
  rw [convert_edges_split llm srcText tgtText g hg]
  rw [List.filter_append, List.filter_append]
  have h1 : (resolvePairsAux (tokenize srcText) (tokenize tgtText) (llm.take g)
      ⟨[], []⟩ 0).2.filter (fun e => decide (e.groupId = some g)) = [] := by
    rw [List.filter_eq_nil_iff]
    intro e he
    obtain ⟨k, hk1, -, hk3⟩ := resolvePairsAux_edges_groupId _ _ _ _ _ e he
    rw [List.length_take] at hk3
    simp only [hk1, decide_eq_true_eq, Option.some.injEq]
    omega
  have h2 : (resolvePair (tokenize srcText) (tokenize tgtText)
        (stateBefore (tokenize srcText) (tokenize tgtText) llm g)
        (llm.getD g ⟨"", ""⟩) g).2.filter (fun e => decide (e.groupId = some g)) =
      (resolvePair (tokenize srcText) (tokenize tgtText)
        (stateBefore (tokenize srcText) (tokenize tgtText) llm g)
        (llm.getD g ⟨"", ""⟩) g).2 := by
    rw [List.filter_eq_self]
    intro e he
    simp [(resolvePair_edges he).1]
  have h3 : (resolvePairsAux (tokenize srcText) (tokenize tgtText) (llm.drop (g + 1))
      (stateBefore (tokenize srcText) (tokenize tgtText) llm (g + 1))
      (g + 1)).2.filter (fun e => decide (e.groupId = some g)) = [] := by
    rw [List.filter_eq_nil_iff]
    intro e he
    obtain ⟨k, hk1, hk2, -⟩ := resolvePairsAux_edges_groupId _ _ _ _ _ e he
    simp only [hk1, decide_eq_true_eq, Option.some.injEq]
    omega
  rw [h1, h2, h3, List.append_nil, List.nil_append]

/- ### Claim theorems -/

/-- Claim C1: in the edge list returned by the alignment resolver
(`convertLLMAlignments`), any two edges with different `groupId` values
have different source positions and different target positions, for every
input list of phrase pairs and every pair of sentence strings. -/
theorem convert_cross_group_disjoint (llm : List Alignment) (srcText tgtText : String)
    (e1 e2 : VisualAlignment)
    (h1 : e1 ∈ (convertLLMAlignments llm srcText tgtText).alignments)
    (h2 : e2 ∈ (convertLLMAlignments llm srcText tgtText).alignments)
    (hg : e1.groupId ≠ e2.groupId) :
    e1.source ≠ e2.source ∧ e1.target ≠ e2.target := by
  rw [convert_alignments_eq] at h1 h2
  exact resolvePairsAux_cross_group _ _ llm ⟨[], []⟩ 0 e1 h1 e2 h2 hg

theorem convert_cross_group_disjoint_witness :
    (⟨0, 0, "a", "x", 1, some 0, some false⟩ : VisualAlignment) ∈
        (convertLLMAlignments [⟨"a", "x"⟩, ⟨"b", "y"⟩] "a b" "x y").alignments ∧
    (⟨1, 1, "b", "y", 1, some 1, some false⟩ : VisualAlignment) ∈
        (convertLLMAlignments [⟨"a", "x"⟩, ⟨"b", "y"⟩] "a b" "x y").alignments ∧
    (some 0 : Option Nat) ≠ some 1 ∧
    ((0 : Nat) ≠ 1 ∧ (0 : Nat) ≠ 1) :=
  ⟨by decide, by decide, by decide,
   convert_cross_group_disjoint [⟨"a", "x"⟩, ⟨"b", "y"⟩] "a b" "x y"
     ⟨0, 0, "a", "x", 1, some 0, some false⟩ ⟨1, 1, "b", "y", 1, some 1, some false⟩
     (by decide) (by decide) (by decide)⟩

/-- Claim C10: every emitted edge carries score 1.0, an explicitly set
group id, and token fields equal to the entries of the returned token
sequences at its positions, which are in range. -/
theorem convert_edge_fields (llm : List Alignment) (srcText tgtText : String)
    (e : VisualAlignment)
    (he : e ∈ (convertLLMAlignments llm srcText tgtText).alignments) :
    e.score = 1 ∧ (∃ g, e.groupId = some g) ∧
    e.source < (convertLLMAlignments llm srcText tgtText).sourceTokens.length ∧
    e.sourceToken = (convertLLMAlignments llm srcText tgtText).sourceTokens.getD e.source "" ∧
    e.target < (convertLLMAlignments llm srcText tgtText).targetTokens.length ∧
    e.targetToken = (convertLLMAlignments llm srcText tgtText).targetTokens.getD e.target "" := by
  rw [convert_alignments_eq] at he
  exact resolvePairsAux_edge_fields _ _ llm ⟨[], []⟩ 0 e he

theorem convert_edge_fields_witness :
    (⟨0, 0, "x", "u", 1, some 0, some false⟩ : VisualAlignment) ∈
        (convertLLMAlignments [⟨"x", "u"⟩] "x" "u").alignments ∧
    ((1 : ℚ) = 1 ∧ (∃ g, (some 0 : Option Nat) = some g) ∧
      (0 : Nat) < (convertLLMAlignments [⟨"x", "u"⟩] "x" "u").sourceTokens.length ∧
      ("x" : String) = (convertLLMAlignments [⟨"x", "u"⟩] "x" "u").sourceTokens.getD 0 "" ∧
      (0 : Nat) < (convertLLMAlignments [⟨"x", "u"⟩] "x" "u").targetTokens.length ∧
      ("u" : String) = (convertLLMAlignments [⟨"x", "u"⟩] "x" "u").targetTokens.getD 0 "") :=
  ⟨by decide,
   convert_edge_fields [⟨"x", "u"⟩] "x" "u" ⟨0, 0, "x", "u", 1, some 0, some false⟩
     (by decide)⟩

/-- Claim C4: for every token sequence, non-empty phrase and used set, the
locator returns the smallest start position whose span stays inside the
token list, avoids every used position, and matches the phrase token for
token; if no such position exists it returns -1. -/
theorem findNextPhraseIndex_leftmost (tokens phrase : List String) (used : List Nat)
    (hne : phrase ≠ []) :
    (findNextPhraseIndex tokens phrase used = -1 ∧
       ∀ i, ¬ ValidStart tokens phrase used i) ∨
    (∃ i : Nat, findNextPhraseIndex tokens phrase used = (i : Int) ∧
       ValidStart tokens phrase used i ∧ ∀ j < i, ¬ ValidStart tokens phrase used j) :=
  findNextPhraseIndex_spec tokens phrase used

theorem findNextPhraseIndex_leftmost_witness :
    (["b"] : List String) ≠ [] ∧
    ((findNextPhraseIndex ["a", "b", "a"] ["b"] [] = -1 ∧
        ∀ i, ¬ ValidStart ["a", "b", "a"] ["b"] [] i) ∨
     (∃ i : Nat, findNextPhraseIndex ["a", "b", "a"] ["b"] [] = (i : Int) ∧
        ValidStart ["a", "b", "a"] ["b"] [] i ∧
        ∀ j < i, ¬ ValidStart ["a", "b", "a"] ["b"] [] j)) :=
  ⟨by decide, findNextPhraseIndex_leftmost ["a", "b", "a"] ["b"] [] (by decide)⟩

/-- Claim C5 counterexample: with a one-token list and nothing used, the
locator applied to the empty phrase returns 0, not NOT_FOUND (-1): the
candidate loop accepts start 0 because both inner loops are vacuous. -/
theorem findNextPhraseIndex_empty_phrase_cex :
    findNextPhraseIndex ["the"] [] [] = 0 ∧ (0 : Int) ≠ -1 :=
  ⟨by decide, by decide⟩

/-- Claim C5 amended: for every token sequence and used set, the locator
returns 0 (the first candidate position) on an empty phrase. -/
theorem findNextPhraseIndex_empty_phrase (tokens : List String) (used : List Nat) :
    findNextPhraseIndex tokens [] used = 0 := by
  unfold findNextPhraseIndex
  rw [List.length_nil, Nat.sub_zero, findNextAux, if_pos]
  · rfl
  · simp [goodStart, spanFree, matchesAt]

/-- Claim C9: for every input the segmenter returns a non-empty list (in
particular for non-empty input), and when every split piece was discarded
it returns the single-element list holding the trimmed input. -/
theorem splitIntoSentences_nonempty (s : String) (hs : s ≠ "") :
    splitIntoSentences s ≠ [] ∧
      (sentencePieces s = [] → splitIntoSentences s = [s.trim]) := by
  unfold splitIntoSentences
  by_cases h : 0 < (sentencePieces s).length
  · rw [if_pos h]
    constructor
    · intro hcon
      rw [hcon] at h
      simp at h
    · intro hcon
      rw [hcon] at h
      simp at h
  · rw [if_neg h]
    exact ⟨by simp, fun _ => rfl⟩

theorem splitIntoSentences_nonempty_witness :
    ("Hi. Yo" : String) ≠ "" ∧
      (splitIntoSentences "Hi. Yo" ≠ [] ∧
        (sentencePieces "Hi. Yo" = [] → splitIntoSentences "Hi. Yo" = ["Hi. Yo".trim])) :=
  ⟨by decide, splitIntoSentences_nonempty "Hi. Yo" (by decide)⟩

/-- Claim C7: tokenize maps the empty string to the empty sequence, and
every produced token is non-empty and free of whitespace, of the stripped
punctuation characters, and of ASCII upper-case letters (every character
is fixed by lower-casing). -/
theorem tokenize_spec :
    tokenize "" = [] ∧
    ∀ s : String, ∀ t ∈ tokenize s, t.data ≠ [] ∧ ∀ c ∈ t.data,
      c.isWhitespace = false ∧ c ∉ punctChars ∧
      ¬(65 ≤ c.toNat ∧ c.toNat ≤ 90) ∧ jsToLower c = c := by
  refine ⟨by decide, fun s t ht => ⟨tokenize_mem_ne_nil ht, fun c hc => ?_⟩⟩
  exact tokenize_mem_chars ht c hc

theorem tokenize_spec_witness :
    ("ab" : String) ∈ tokenize "AB cd." ∧
      (("ab" : String).data ≠ [] ∧ ∀ c ∈ ("ab" : String).data,
        c.isWhitespace = false ∧ c ∉ punctChars ∧
        ¬(65 ≤ c.toNat ∧ c.toNat ≤ 90) ∧ jsToLower c = c) :=
  ⟨by decide, tokenize_spec.2 "AB cd." "ab" (by decide)⟩

/-- Claim C2: for a pair `g` whose tokenized source and target phrases are
both located, the resolver claims every position of both matched spans,
tags the pair's edges with `isPhrase` true exactly when either phrase has
more than one token, and emits exactly one edge (with group id `g`) for
every (sourcePos, targetPos) pair in the cross-product of the two matched
spans. -/
theorem resolve_success_spec (llm : List Alignment) (srcText tgtText : String)
    (g s t : Nat) (hg : g < llm.length)
    (hs : findNextPhraseIndex (tokenize srcText) (tokenize (llm.getD g ⟨"", ""⟩).source)
        (stateBefore (tokenize srcText) (tokenize tgtText) llm g).usedSource = (s : Int))
    (ht : findNextPhraseIndex (tokenize tgtText) (tokenize (llm.getD g ⟨"", ""⟩).target)
        (stateBefore (tokenize srcText) (tokenize tgtText) llm g).usedTarget = (t : Int)) :
    (∀ k < (tokenize (llm.getD g ⟨"", ""⟩).source).length,
        (s + k) ∈ (stateBefore (tokenize srcText) (tokenize tgtText) llm (g + 1)).usedSource) ∧
    (∀ k < (tokenize (llm.getD g ⟨"", ""⟩).target).length,
        (t + k) ∈ (stateBefore (tokenize srcText) (tokenize tgtText) llm (g + 1)).usedTarget) ∧
    (∀ e ∈ (convertLLMAlignments llm srcText tgtText).alignments.filter
        (fun e => decide (e.groupId = some g)),
      e.groupId = some g ∧
        (e.isPhrase = some true ↔
          1 < (tokenize (llm.getD g ⟨"", ""⟩).source).length ∨
          1 < (tokenize (llm.getD g ⟨"", ""⟩).target).length)) ∧
    (((convertLLMAlignments llm srcText tgtText).alignments.filter
        (fun e => decide (e.groupId = some g))).map (fun e => (e.source, e.target))).Nodup ∧
    (∀ p q : Nat,
      (p, q) ∈ ((convertLLMAlignments llm srcText tgtText).alignments.filter
          (fun e => decide (e.groupId = some g))).map (fun e => (e.source, e.target)) ↔
        ((∃ i < (tokenize (llm.getD g ⟨"", ""⟩).source).length, p = s + i) ∧
         (∃ j < (tokenize (llm.getD g ⟨"", ""⟩).target).length, q = t + j))) := by
  have hfilter := convert_group_filter llm srcText tgtText g hg
  have hstep := resolvePair_succ (tokenize srcText) (tokenize tgtText)
    (stateBefore (tokenize srcText) (tokenize tgtText) llm g)
    (llm.getD g ⟨"", ""⟩) g s t hs ht
  have hsucc := stateBefore_succ (tokenize srcText) (tokenize tgtText) llm g hg
  rw [hfilter, hstep, hsucc, hstep]
  refine ⟨?_, ?_, ?_, ?_, ?_⟩
  · intro k hk
    exact List.mem_append_right _ (mem_spanPositions.mpr ⟨k, hk, rfl⟩)
  · intro k hk
    exact List.mem_append_right _ (mem_spanPositions.mpr ⟨k, hk, rfl⟩)
  · intro e he
    have he2 : e ∈ crossEdges (tokenize srcText) (tokenize tgtText) s t
        (tokenize (llm.getD g ⟨"", ""⟩).source).length
        (tokenize (llm.getD g ⟨"", ""⟩).target).length g
        (decide (1 < (tokenize (llm.getD g ⟨"", ""⟩).source).length) ||
         decide (1 < (tokenize (llm.getD g ⟨"", ""⟩).target).length)) := he
    rw [mem_crossEdges_iff] at he2
    obtain ⟨i, hi, j, hj, rfl⟩ := he2
    refine ⟨rfl, ?_⟩
    show some (decide (1 < (tokenize (llm.getD g ⟨"", ""⟩).source).length) ||
      decide (1 < (tokenize (llm.getD g ⟨"", ""⟩).target).length)) = some true ↔ _
    simp only [Option.some.injEq, Bool.or_eq_true, decide_eq_true_eq]
  · show ((crossEdges _ _ s t _ _ g _).map (fun e => (e.source, e.target))).Nodup
    rw [crossEdges_map_pairs]
    exact rangePairs_nodup
  · intro p q
    show (p, q) ∈ (crossEdges _ _ s t _ _ g _).map (fun e => (e.source, e.target)) ↔ _
    rw [crossEdges_map_pairs, mem_rangePairs_iff]

theorem resolve_success_spec_witness :
    (0 : Nat) < ([⟨"c d", "z"⟩] : List Alignment).length ∧
    findNextPhraseIndex (tokenize "c d")
        (tokenize (([⟨"c d", "z"⟩] : List Alignment).getD 0 ⟨"", ""⟩).source)
        (stateBefore (tokenize "c d") (tokenize "z") [⟨"c d", "z"⟩] 0).usedSource =
      ((0 : Nat) : Int) ∧
    findNextPhraseIndex (tokenize "z")
        (tokenize (([⟨"c d", "z"⟩] : List Alignment).getD 0 ⟨"", ""⟩).target)
        (stateBefore (tokenize "c d") (tokenize "z") [⟨"c d", "z"⟩] 0).usedTarget =
      ((0 : Nat) : Int) ∧
    ((∀ k < (tokenize (([⟨"c d", "z"⟩] : List Alignment).getD 0 ⟨"", ""⟩).source).length,
        (0 + k) ∈ (stateBefore (tokenize "c d") (tokenize "z") [⟨"c d", "z"⟩] (0 + 1)).usedSource) ∧
    (∀ k < (tokenize (([⟨"c d", "z"⟩] : List Alignment).getD 0 ⟨"", ""⟩).target).length,
        (0 + k) ∈ (stateBefore (tokenize "c d") (tokenize "z") [⟨"c d", "z"⟩] (0 + 1)).usedTarget) ∧
    (∀ e ∈ (convertLLMAlignments [⟨"c d", "z"⟩] "c d" "z").alignments.filter
        (fun e => decide (e.groupId = some 0)),
      e.groupId = some 0 ∧
        (e.isPhrase = some true ↔
          1 < (tokenize (([⟨"c d", "z"⟩] : List Alignment).getD 0 ⟨"", ""⟩).source).length ∨
          1 < (tokenize (([⟨"c d", "z"⟩] : List Alignment).getD 0 ⟨"", ""⟩).target).length)) ∧
    (((convertLLMAlignments [⟨"c d", "z"⟩] "c d" "z").alignments.filter
        (fun e => decide (e.groupId = some 0))).map (fun e => (e.source, e.target))).Nodup ∧
    (∀ p q : Nat,
      (p, q) ∈ ((convertLLMAlignments [⟨"c d", "z"⟩] "c d" "z").alignments.filter
          (fun e => decide (e.groupId = some 0))).map (fun e => (e.source, e.target)) ↔
        ((∃ i < (tokenize (([⟨"c d", "z"⟩] : List Alignment).getD 0 ⟨"", ""⟩).source).length,
            p = 0 + i) ∧
         (∃ j < (tokenize (([⟨"c d", "z"⟩] : List Alignment).getD 0 ⟨"", ""⟩).target).length,
            q = 0 + j)))) :=
  ⟨by decide, by decide, by decide,
   resolve_success_spec [⟨"c d", "z"⟩] "c d" "z" 0 0 0 (by decide) (by decide) (by decide)⟩

/-- Claim C3: a pair whose source-side or target-side lookup fails
contributes no edges and claims no positions, and the remaining pairs
resolve exactly as if the failed pair were absent: the final state is the
same and the edges coincide, the later pairs' group ids being shifted by
the one slot the failed pair occupies. -/
theorem resolve_skip_unresolved (pre post : List Alignment) (al : Alignment)
    (srcText tgtText : String)
    (h : findNextPhraseIndex (tokenize srcText) (tokenize al.source)
          ((resolvePairsAux (tokenize srcText) (tokenize tgtText) pre
            ⟨[], []⟩ 0).1).usedSource = -1 ∨
         findNextPhraseIndex (tokenize tgtText) (tokenize al.target)
          ((resolvePairsAux (tokenize srcText) (tokenize tgtText) pre
            ⟨[], []⟩ 0).1).usedTarget = -1) :
    resolvePair (tokenize srcText) (tokenize tgtText)
        ((resolvePairsAux (tokenize srcText) (tokenize tgtText) pre ⟨[], []⟩ 0).1)
        al pre.length =
      ((resolvePairsAux (tokenize srcText) (tokenize tgtText) pre ⟨[], []⟩ 0).1, []) ∧
    (resolvePairsAux (tokenize srcText) (tokenize tgtText) (pre ++ al :: post)
        ⟨[], []⟩ 0).1 =
      (resolvePairsAux (tokenize srcText) (tokenize tgtText) (pre ++ post) ⟨[], []⟩ 0).1 ∧
    (convertLLMAlignments (pre ++ al :: post) srcText tgtText).alignments =
      (resolvePairsAux (tokenize srcText) (tokenize tgtText) pre ⟨[], []⟩ 0).2 ++
        ((resolvePairsAux (tokenize srcText) (tokenize tgtText) post
            ((resolvePairsAux (tokenize srcText) (tokenize tgtText) pre ⟨[], []⟩ 0).1)
            pre.length).2).map bumpGroup ∧
    (convertLLMAlignments (pre ++ post) srcText tgtText).alignments =
      (resolvePairsAux (tokenize srcText) (tokenize tgtText) pre ⟨[], []⟩ 0).2 ++
        (resolvePairsAux (tokenize srcText) (tokenize tgtText) post
            ((resolvePairsAux (tokenize srcText) (tokenize tgtText) pre ⟨[], []⟩ 0).1)
            pre.length).2 := by
  have hfail := resolvePair_fail (tokenize srcText) (tokenize tgtText)
    ((resolvePairsAux (tokenize srcText) (tokenize tgtText) pre ⟨[], []⟩ 0).1)
    al pre.length h
  have hshift := resolvePairsAux_idx_shift (tokenize srcText) (tokenize tgtText) post
    ((resolvePairsAux (tokenize srcText) (tokenize tgtText) pre ⟨[], []⟩ 0).1) pre.length
  refine ⟨hfail, ?_, ?_, ?_⟩
  · rw [resolvePairsAux_append, resolvePairsAux_append, resolvePairsAux_cons]
    simp only [Nat.zero_add, hfail]
    exact hshift.1
  · rw [convert_alignments_eq, resolvePairsAux_append, resolvePairsAux_cons]
    simp only [Nat.zero_add, hfail, List.nil_append]
    rw [hshift.2]
  · rw [convert_alignments_eq, resolvePairsAux_append]
    simp only [Nat.zero_add]

theorem cleanChars_space : cleanChars " " = [' '] := by decide

theorem cleanChars_append (a b : String) :
    cleanChars (a ++ b) = cleanChars a ++ cleanChars b := by
  unfold cleanChars
  show ((a ++ b).data.map jsToLower).filter _ = _
  rw [String.data_append, List.map_append, List.filter_append]
  rfl

theorem cleanChars_fixed {s : String}
    (h : ∀ c ∈ s.data, c ∉ punctChars ∧ jsToLower c = c) :
    cleanChars s = s.data := by
  unfold cleanChars
  have hmap : s.toList.map jsToLower = s.toList := by
    conv_rhs => rw [← List.map_id s.toList]
    exact List.map_congr_left fun c hc => (h c hc).2
  rw [hmap, List.filter_eq_self.mpr]
  · rfl
  · intro c hc
    simpa using (h c hc).1

theorem splitOnWs_append_noWs (t l acc : List Char)
    (h : ∀ c ∈ t, c.isWhitespace = false) :
    splitOnWs (t ++ l) acc = splitOnWs l (t.reverse ++ acc) := by
  induction t generalizing acc with
  | nil => simp
  | cons c t ih =>
    rw [List.cons_append, splitOnWs, if_neg]
    · rw [ih (c :: acc) (fun d hd => h d (List.mem_cons_of_mem c hd))]
      rw [List.reverse_cons, List.append_assoc]
      rfl
    · simp [h c (List.mem_cons_self ..)]

theorem splitOnWs_cons_ws {l acc : List Char} :
    splitOnWs (' ' :: l) acc = acc.reverse :: splitOnWs l [] := by
  rw [splitOnWs, if_pos]
  decide

theorem tokenize_single {t : String} (hne : t.data ≠ [])
    (hchars : ∀ c ∈ t.data, c.isWhitespace = false ∧ c ∉ punctChars ∧ jsToLower c = c) :
    tokenize t = [t] := by
  unfold tokenize
  rw [cleanChars_fixed (fun c hc => ⟨(hchars c hc).2.1, (hchars c hc).2.2⟩)]
  have hsplit : splitOnWs t.data [] = [t.data] := by
    have h2 := splitOnWs_append_noWs t.data [] []
      (fun c hc => (hchars c hc).1)
    rw [List.append_nil] at h2
    rw [h2]
    simp [splitOnWs]
  rw [hsplit]
  simp only [List.map_cons, List.map_nil]
  rw [List.filter_cons_of_pos]
  · rfl
  · simp only [decide_eq_true_eq]
    show 0 < t.data.length
    exact List.length_pos.mpr hne

theorem tokenize_join {ts : List String}
    (h : ∀ t ∈ ts, t.data ≠ [] ∧ ∀ c ∈ t.data,
      c.isWhitespace = false ∧ c ∉ punctChars ∧ jsToLower c = c) :
    tokenize (joinWithSpaces ts) = ts := by
  induction ts with
  | nil =>
    show tokenize "" = []
    decide
  | cons t rest ih =>
    cases rest with
    | nil =>
      show tokenize t = [t]
      exact tokenize_single (h t (List.mem_cons_self ..)).1 (h t (List.mem_cons_self ..)).2
    | cons r rs =>
      have hmain := h t (List.mem_cons_self ..)
      show tokenize (t ++ " " ++ joinWithSpaces (r :: rs)) = t :: r :: rs
      unfold tokenize
      rw [cleanChars_append, cleanChars_append, cleanChars_space,
        cleanChars_fixed (fun c hc => ⟨(hmain.2 c hc).2.1, (hmain.2 c hc).2.2⟩)]
      rw [List.append_assoc]
      rw [show ([' '] ++ cleanChars (joinWithSpaces (r :: rs))) =
        ' ' :: cleanChars (joinWithSpaces (r :: rs)) from rfl]
      rw [splitOnWs_append_noWs _ _ _ (fun c hc => (hmain.2 c hc).1)]
      rw [List.append_nil, splitOnWs_cons_ws, List.reverse_reverse]
      simp only [List.map_cons]
      rw [List.filter_cons_of_pos]
      · have htail := ih (fun u hu => h u (List.mem_cons_of_mem t hu))
        unfold tokenize at htail
        rw [htail]
      · simp only [decide_eq_true_eq]
        show 0 < t.data.length
        exact List.length_pos.mpr hmain.1

/-- Claim C8: re-tokenizing the single-space rejoining of any tokenize
output yields the same token sequence. -/
theorem tokenize_idempotent (s : String) :
    tokenize (joinWithSpaces (tokenize s)) = tokenize s :=
  tokenize_join fun t ht =>
    ⟨tokenize_mem_ne_nil ht, fun c hc =>
      ⟨(tokenize_mem_chars ht c hc).1, (tokenize_mem_chars ht c hc).2.1,
       (tokenize_mem_chars ht c hc).2.2.2⟩⟩

theorem matchesAt_iff {tokens phrase : List String} {i : Nat} :
    matchesAt tokens phrase i = true ↔
      ∀ j < phrase.length, tokens.getD (i + j) "" = phrase.getD j "" := by
  unfold matchesAt
  simp [List.all_eq_true, List.mem_range]

theorem goodStart_eq_true {tokens phrase : List String} {used : List Nat} {i : Nat} :
    goodStart tokens phrase used i = true ↔
      ((∀ k < phrase.length, (i + k) ∉ used) ∧ matchesAt tokens phrase i = true) := by
  unfold goodStart spanFree
  rw [Bool.and_eq_true]
  simp [List.all_eq_true, List.mem_range]

theorem goodStart_eq_false_of_not_match {tokens phrase : List String} {used : List Nat}
    {i : Nat} (h : matchesAt tokens phrase i = false) :
    goodStart tokens phrase used i = false := by
  unfold goodStart
  rw [h, Bool.and_false]

/-- If `s0` is the leftmost position at which `phrase` matches at all, and
no used position overlaps the span starting at `s0`, then the locator
returns exactly `s0`. -/
theorem findNextPhraseIndex_eq_of_leftmost {tokens phrase : List String} {used : List Nat}
    {s0 : Nat} (hne : phrase ≠ [])
    (hlastok : phrase.getD (phrase.length - 1) "" ≠ "")
    (hmatch : matchesAt tokens phrase s0 = true)
    (hleft : ∀ p < s0, matchesAt tokens phrase p = false)
    (hfree : ∀ x ∈ used, ∀ m < phrase.length, x ≠ s0 + m) :
    findNextPhraseIndex tokens phrase used = (s0 : Int) := by
  have hbound : s0 + phrase.length ≤ tokens.length := matchesAt_bound hmatch hne hlastok
  have hplen : 0 < phrase.length := List.length_pos.mpr hne
  unfold findNextPhraseIndex
  have hgood : goodStart tokens phrase used (0 + s0) = true := by
    rw [Nat.zero_add]
    refine goodStart_eq_true.mpr ⟨fun k hk hcon => hfree _ hcon k hk rfl, hmatch⟩
  have := findNextAux_eq_of_good (c := tokens.length + 1 - phrase.length) (i := 0)
    (k := s0) (by omega) hgood
    (fun m hm => by
      rw [Nat.zero_add]
      exact goodStart_eq_false_of_not_match (hleft m hm))
  simpa using this

theorem resolve_order_core (S T : List String) (pairs : List Alignment)
    (st : ResolveState) (idx : Nat) (ss ts : Nat → Nat)
    (hne : ∀ k < pairs.length, tokenize ((pairs.getD k ⟨"", ""⟩).source) ≠ [] ∧
      tokenize ((pairs.getD k ⟨"", ""⟩).target) ≠ [])
    (hmatch : ∀ k < pairs.length,
      matchesAt S (tokenize ((pairs.getD k ⟨"", ""⟩).source)) (ss k) = true ∧
      matchesAt T (tokenize ((pairs.getD k ⟨"", ""⟩).target)) (ts k) = true)
    (hleft : ∀ k < pairs.length,
      (∀ p < ss k, matchesAt S (tokenize ((pairs.getD k ⟨"", ""⟩).source)) p = false) ∧
      (∀ p < ts k, matchesAt T (tokenize ((pairs.getD k ⟨"", ""⟩).target)) p = false))
    (horder : ∀ k < pairs.length, ∀ j < k,
      ss j + (tokenize ((pairs.getD j ⟨"", ""⟩).source)).length ≤ ss k ∧
      ts j + (tokenize ((pairs.getD j ⟨"", ""⟩).target)).length ≤ ts k)
    (hfree : ∀ k < pairs.length,
      (∀ x ∈ st.usedSource, ∀ m < (tokenize ((pairs.getD k ⟨"", ""⟩).source)).length,
        x ≠ ss k + m) ∧
      (∀ x ∈ st.usedTarget, ∀ m < (tokenize ((pairs.getD k ⟨"", ""⟩).target)).length,
        x ≠ ts k + m)) :
    ∀ k, k < pairs.length →
      findNextPhraseIndex S (tokenize ((pairs.getD k ⟨"", ""⟩).source))
          ((resolvePairsAux S T (pairs.take k) st idx).1).usedSource = ((ss k : Nat) : Int) ∧
      findNextPhraseIndex T (tokenize ((pairs.getD k ⟨"", ""⟩).target))
          ((resolvePairsAux S T (pairs.take k) st idx).1).usedTarget = ((ts k : Nat) : Int) := by
  induction pairs generalizing st idx ss ts with
  | nil => exact fun k hk => absurd hk (by simp)
  | cons al rest ih =>
    have h0len : 0 < (al :: rest).length := by simp
    have hne0 := hne 0 h0len
    have hmatch0 := hmatch 0 h0len
    have hleft0 := hleft 0 h0len
    have hfree0 := hfree 0 h0len
    simp only [List.getD_cons_zero] at hne0 hmatch0 hleft0 hfree0
    have hfind0S : findNextPhraseIndex S (tokenize al.source) st.usedSource =
        ((ss 0 : Nat) : Int) := by
      refine findNextPhraseIndex_eq_of_leftmost hne0.1 ?_ hmatch0.1 hleft0.1 hfree0.1
      exact tokenize_getD_ne_empty
        (by have := List.length_pos.mpr hne0.1; omega)
    have hfind0T : findNextPhraseIndex T (tokenize al.target) st.usedTarget =
        ((ts 0 : Nat) : Int) := by
      refine findNextPhraseIndex_eq_of_leftmost hne0.2 ?_ hmatch0.2 hleft0.2 hfree0.2
      exact tokenize_getD_ne_empty
        (by have := List.length_pos.mpr hne0.2; omega)
    have hstep := resolvePair_succ S T st al idx (ss 0) (ts 0) hfind0S hfind0T
    intro k hk
    cases k with
    | zero => exact ⟨hfind0S, hfind0T⟩
    | succ k2 =>
      have hk2 : k2 < rest.length := by
        simp only [List.length_cons] at hk
        omega
      have htake : (al :: rest).take (k2 + 1) = al :: rest.take k2 := rfl
      rw [htake, resolvePairsAux_cons, hstep]
      refine ih ⟨st.usedSource ++ spanPositions (ss 0) (tokenize al.source).length,
          st.usedTarget ++ spanPositions (ts 0) (tokenize al.target).length⟩
        (idx + 1) (fun k => ss (k + 1)) (fun k => ts (k + 1))
        ?_ ?_ ?_ ?_ ?_ k2 hk2
      · exact fun k hk => hne (k + 1) (by simp; omega)
      · exact fun k hk => hmatch (k + 1) (by simp; omega)
      · exact fun k hk => hleft (k + 1) (by simp; omega)
      · exact fun k hk j hj => horder (k + 1) (by simp; omega) (j + 1) (by omega)
      · intro k hk
        have hord := horder (k + 1) (by simp; omega) 0 (Nat.succ_pos k)
        simp only [List.getD_cons_zero] at hord
        constructor
        · intro x hx m hm
          show x ≠ ss (k + 1) + m
          rcases List.mem_append.mp hx with hold | hspan
          · exact (hfree (k + 1) (by simp; omega)).1 x hold m hm
          · obtain ⟨m0, hm0, rfl⟩ := mem_spanPositions.mp hspan
            have h1 := hord.1
            omega
        · intro x hx m hm
          show x ≠ ts (k + 1) + m
          rcases List.mem_append.mp hx with hold | hspan
          · exact (hfree (k + 1) (by simp; omega)).2 x hold m hm
          · obtain ⟨m0, hm0, rfl⟩ := mem_spanPositions.mp hspan
            have h1 := hord.2
            omega

/-- Claim C6: when every pair's tokenized phrases occur in the sentences
with leftmost occurrences at positions forming non-overlapping spans in
increasing input order on both sides, every pair resolves at exactly those
positions and the matched start positions are strictly increasing over the
pairs in input order. -/
theorem resolve_order_preservation (llm : List Alignment) (srcText tgtText : String)
    (ss ts : Nat → Nat)
    (hne : ∀ k < llm.length, tokenize ((llm.getD k ⟨"", ""⟩).source) ≠ [] ∧
      tokenize ((llm.getD k ⟨"", ""⟩).target) ≠ [])
    (hmatch : ∀ k < llm.length,
      matchesAt (tokenize srcText) (tokenize ((llm.getD k ⟨"", ""⟩).source)) (ss k) = true ∧
      matchesAt (tokenize tgtText) (tokenize ((llm.getD k ⟨"", ""⟩).target)) (ts k) = true)
    (hleft : ∀ k < llm.length,
      (∀ p < ss k,
        matchesAt (tokenize srcText) (tokenize ((llm.getD k ⟨"", ""⟩).source)) p = false) ∧
      (∀ p < ts k,
        matchesAt (tokenize tgtText) (tokenize ((llm.getD k ⟨"", ""⟩).target)) p = false))
    (horder : ∀ k < llm.length, ∀ j < k,
      ss j + (tokenize ((llm.getD j ⟨"", ""⟩).source)).length ≤ ss k ∧
      ts j + (tokenize ((llm.getD j ⟨"", ""⟩).target)).length ≤ ts k) :
    ∀ k, k < llm.length →
      findNextPhraseIndex (tokenize srcText) (tokenize ((llm.getD k ⟨"", ""⟩).source))
          (stateBefore (tokenize srcText) (tokenize tgtText) llm k).usedSource
        = ((ss k : Nat) : Int) ∧
      findNextPhraseIndex (tokenize tgtText) (tokenize ((llm.getD k ⟨"", ""⟩).target))
          (stateBefore (tokenize srcText) (tokenize tgtText) llm k).usedTarget
        = ((ts k : Nat) : Int) ∧
      ∀ j < k, ss j < ss k ∧ ts j < ts k := by
  intro k hk
  have hcore := resolve_order_core (tokenize srcText) (tokenize tgtText) llm ⟨[], []⟩ 0
    ss ts hne hmatch hleft horder
    (fun k hk => ⟨fun x hx => absurd hx (List.not_mem_nil x),
                  fun x hx => absurd hx (List.not_mem_nil x)⟩) k hk
  refine ⟨hcore.1, hcore.2, ?_⟩
  intro j hj
  have h1 := horder k hk j hj
  have h2 := hne j (by omega)
  constructor
  · have h3 := List.length_pos.mpr h2.1
    omega
  · have h3 := List.length_pos.mpr h2.2
    omega

theorem resolve_order_preservation_witness :
    (∀ k < ([⟨"a", "x"⟩, ⟨"b", "y"⟩] : List Alignment).length,
      tokenize ((([⟨"a", "x"⟩, ⟨"b", "y"⟩] : List Alignment).getD k ⟨"", ""⟩).source) ≠ [] ∧
      tokenize ((([⟨"a", "x"⟩, ⟨"b", "y"⟩] : List Alignment).getD k ⟨"", ""⟩).target) ≠ []) ∧
    (∀ k < ([⟨"a", "x"⟩, ⟨"b", "y"⟩] : List Alignment).length,
      matchesAt (tokenize "a b")
        (tokenize ((([⟨"a", "x"⟩, ⟨"b", "y"⟩] : List Alignment).getD k ⟨"", ""⟩).source))
        k = true ∧
      matchesAt (tokenize "x y")
        (tokenize ((([⟨"a", "x"⟩, ⟨"b", "y"⟩] : List Alignment).getD k ⟨"", ""⟩).target))
        k = true) ∧
    (∀ k < ([⟨"a", "x"⟩, ⟨"b", "y"⟩] : List Alignment).length,
      (∀ p < k, matchesAt (tokenize "a b")
        (tokenize ((([⟨"a", "x"⟩, ⟨"b", "y"⟩] : List Alignment).getD k ⟨"", ""⟩).source))
        p = false) ∧
      (∀ p < k, matchesAt (tokenize "x y")
        (tokenize ((([⟨"a", "x"⟩, ⟨"b", "y"⟩] : List Alignment).getD k ⟨"", ""⟩).target))
        p = false)) ∧
    (∀ k < ([⟨"a", "x"⟩, ⟨"b", "y"⟩] : List Alignment).length, ∀ j < k,
      j + (tokenize ((([⟨"a", "x"⟩, ⟨"b", "y"⟩] : List Alignment).getD j ⟨"", ""⟩).source)).length
        ≤ k ∧
      j + (tokenize ((([⟨"a", "x"⟩, ⟨"b", "y"⟩] : List Alignment).getD j ⟨"", ""⟩).target)).length
        ≤ k) ∧
    (∀ k, k < ([⟨"a", "x"⟩, ⟨"b", "y"⟩] : List Alignment).length →
      findNextPhraseIndex (tokenize "a b")
          (tokenize ((([⟨"a", "x"⟩, ⟨"b", "y"⟩] : List Alignment).getD k ⟨"", ""⟩).source))
          (stateBefore (tokenize "a b") (tokenize "x y") [⟨"a", "x"⟩, ⟨"b", "y"⟩] k).usedSource
        = ((k : Nat) : Int) ∧
      findNextPhraseIndex (tokenize "x y")
          (tokenize ((([⟨"a", "x"⟩, ⟨"b", "y"⟩] : List Alignment).getD k ⟨"", ""⟩).target))
          (stateBefore (tokenize "a b") (tokenize "x y") [⟨"a", "x"⟩, ⟨"b", "y"⟩] k).usedTarget
        = ((k : Nat) : Int) ∧
      ∀ j < k, j < k ∧ j < k) :=
  ⟨by decide, by decide, by decide, by decide,
   resolve_order_preservation [⟨"a", "x"⟩, ⟨"b", "y"⟩] "a b" "x y" (fun k => k) (fun k => k)
     (by decide) (by decide) (by decide) (by decide)⟩

theorem resolve_skip_unresolved_witness :
    (findNextPhraseIndex (tokenize "a b") (tokenize (⟨"q", "q"⟩ : Alignment).source)
        ((resolvePairsAux (tokenize "a b") (tokenize "x y") [⟨"a", "x"⟩]
          ⟨[], []⟩ 0).1).usedSource = -1 ∨
     findNextPhraseIndex (tokenize "x y") (tokenize (⟨"q", "q"⟩ : Alignment).target)
        ((resolvePairsAux (tokenize "a b") (tokenize "x y") [⟨"a", "x"⟩]
          ⟨[], []⟩ 0).1).usedTarget = -1) ∧
    (resolvePair (tokenize "a b") (tokenize "x y")
        ((resolvePairsAux (tokenize "a b") (tokenize "x y") [⟨"a", "x"⟩] ⟨[], []⟩ 0).1)
        ⟨"q", "q"⟩ ([⟨"a", "x"⟩] : List Alignment).length =
      ((resolvePairsAux (tokenize "a b") (tokenize "x y") [⟨"a", "x"⟩] ⟨[], []⟩ 0).1, []) ∧
    (resolvePairsAux (tokenize "a b") (tokenize "x y")
        ([⟨"a", "x"⟩] ++ (⟨"q", "q"⟩ : Alignment) :: [⟨"b", "y"⟩]) ⟨[], []⟩ 0).1 =
      (resolvePairsAux (tokenize "a b") (tokenize "x y")
        ([⟨"a", "x"⟩] ++ [⟨"b", "y"⟩]) ⟨[], []⟩ 0).1 ∧
    (convertLLMAlignments ([⟨"a", "x"⟩] ++ (⟨"q", "q"⟩ : Alignment) :: [⟨"b", "y"⟩])
        "a b" "x y").alignments =
      (resolvePairsAux (tokenize "a b") (tokenize "x y") [⟨"a", "x"⟩] ⟨[], []⟩ 0).2 ++
        ((resolvePairsAux (tokenize "a b") (tokenize "x y") [⟨"b", "y"⟩]
            ((resolvePairsAux (tokenize "a b") (tokenize "x y") [⟨"a", "x"⟩] ⟨[], []⟩ 0).1)
            ([⟨"a", "x"⟩] : List Alignment).length).2).map bumpGroup ∧
    (convertLLMAlignments ([⟨"a", "x"⟩] ++ [⟨"b", "y"⟩]) "a b" "x y").alignments =
      (resolvePairsAux (tokenize "a b") (tokenize "x y") [⟨"a", "x"⟩] ⟨[], []⟩ 0).2 ++
        (resolvePairsAux (tokenize "a b") (tokenize "x y") [⟨"b", "y"⟩]
            ((resolvePairsAux (tokenize "a b") (tokenize "x y") [⟨"a", "x"⟩] ⟨[], []⟩ 0).1)
            ([⟨"a", "x"⟩] : List Alignment).length).2) :=
  ⟨by decide,
   resolve_skip_unresolved [⟨"a", "x"⟩] [⟨"b", "y"⟩] ⟨"q", "q"⟩ "a b" "x y" (by decide)⟩

end WordMapper
